import Mathlib

/-!
Verification of the primer-design protocol layer of the prinia repository
(`src/prinia/primer3.py`): the configuration encoder (`Primer3.create_config`),
the oracle invoker (`Primer3.run`) and the output decoder
(`_parse_single_pair_id`, `parse_primer3_output`).

Strings are modelled by Lean `String` (a wrapper around `List Char`, matching
Python `str` for the ASCII data handled here).  Python integers are modelled by
`Nat`/`Int`.  The one float expression (`int(min + float(max - min) / 2)`) is
modelled exactly over `Rat`, with `int(...)` as truncation toward zero; this is
exact for the magnitudes at hand.  Fallible code returns `Except`, and the
filesystem side effects of `Primer3.run` are modelled by explicit state
passing.
-/

/-- Decimal digit characters of a natural number, accumulator/fuel form.
Models the canonical decimal rendering used by Python string formatting
(`"{0}".format(id)` and `str.format` interpolation of ints). -/
def natDigitsCore : Nat → Nat → List Char → List Char
  | 0, _, acc => acc
  | fuel + 1, n, acc =>
    if n < 10 then Nat.digitChar n :: acc
    else natDigitsCore fuel (n / 10) (Nat.digitChar (n % 10) :: acc)

/-- Decimal digits of a natural number (most significant first). -/
def natDigits (n : Nat) : List Char := natDigitsCore (n + 1) n []

/-- Decimal rendering of a natural number, as a string. -/
def natRepr (n : Nat) : String := ⟨natDigits n⟩

/-- Decimal rendering of a Python integer (`str(i)` / `"{}".format(i)`). -/
def intRepr : Int → String
  | .ofNat n => natRepr n
  | .negSucc n => "-" ++ natRepr (n + 1)

/-- Numeric value of a list of decimal digit characters; models Python
`int(s)` applied to a nonempty all-digit string. -/
def digitsVal (cs : List Char) : Nat :=
  cs.foldl (fun a c => 10 * a + (c.toNat - 48)) 0

/-- Strip an exact leading character sequence, returning the remainder.
Helper for the model of `re.match` on an anchored literal prefix. -/
def dropPfx : List Char → List Char → Option (List Char)
  | [], cs => some cs
  | _ :: _, [] => none
  | p :: ps, c :: cs => if p = c then dropPfx ps cs else none

/-- Model of the regex fragment `.+$` applied (after `re.match` has consumed
the key) to the remaining characters `v` of the line: there must be at least
one character, `.` never matches a newline, and `$` may match just before one
final trailing newline. -/
def valueOk (v : List Char) : Bool :=
  let w := if v.getLast? = some '\n' then v.dropLast else v
  decide (w ≠ []) && !(w.contains '\n')

/-- Model of `re.match('^PRIMER_LEFT_(\d+)_SEQUENCE=.+$', line)` from
`parse_primer3_output` (src/prinia/primer3.py line 145), returning the value
of `int(match.group(1))` on success.  `(\d+)` is greedy and the character
after it in the pattern is not a digit, so it captures the maximal digit run. -/
def matchLeftSeq (s : String) : Option Nat :=
  match dropPfx "PRIMER_LEFT_".data s.data with
  | none => none
  | some r1 =>
    let ds := r1.takeWhile Char.isDigit
    let r2 := r1.dropWhile Char.isDigit
    if ds = [] then none
    else
      match dropPfx "_SEQUENCE=".data r2 with
      | none => none
      | some v => if valueOk v then some (digitsVal ds) else none

/-- The discovered pair indices: `pair_ids` from `parse_primer3_output`
(src/prinia/primer3.py lines 147-148), in line order, duplicates kept. -/
def pairIds (lines : List String) : List Nat :=
  lines.filterMap matchLeftSeq

/-- `left_seq_key = "PRIMER_LEFT_{0}_SEQUENCE=".format(id)` (line 109). -/
def left_seq_key (id : Nat) : String := "PRIMER_LEFT_" ++ natRepr id ++ "_SEQUENCE="

/-- `right_seq_key = "PRIMER_RIGHT_{0}_SEQUENCE=".format(id)` (line 110). -/
def right_seq_key (id : Nat) : String := "PRIMER_RIGHT_" ++ natRepr id ++ "_SEQUENCE="

/-- `left_pos_key = "PRIMER_LEFT_{0}=".format(id)` (line 111). -/
def left_pos_key (id : Nat) : String := "PRIMER_LEFT_" ++ natRepr id ++ "="

/-- `right_pos_key = "PRIMER_RIGHT_{0}=".format(id)` (line 112). -/
def right_pos_key (id : Nat) : String := "PRIMER_RIGHT_" ++ natRepr id ++ "="

/-- `left_gc_key = "PRIMER_LEFT_{0}_GC_PERCENT".format(id)` (line 113);
note: no trailing `=` in the source. -/
def left_gc_key (id : Nat) : String := "PRIMER_LEFT_" ++ natRepr id ++ "_GC_PERCENT"

/-- `right_gc_key = "PRIMER_RIGHT_{0}_GC_PERCENT".format(id)` (line 114). -/
def right_gc_key (id : Nat) : String := "PRIMER_RIGHT_" ++ natRepr id ++ "_GC_PERCENT"

/-- Python `str.startswith`. -/
def pyStartswith (s key : String) : Bool := key.data.isPrefixOf s.data

/-- `[x for x in lines if x.startswith(key)]` (lines 116-121). -/
def linesWith (key : String) (lines : List String) : List String :=
  lines.filter (fun x => pyStartswith x key)

/-- Python `str.split(sep)` for a single-character separator: splits at every
occurrence, keeping empty pieces; the result is always nonempty. -/
def splitOnChar (sep : Char) : List Char → List (List Char)
  | [] => [[]]
  | c :: cs =>
    match splitOnChar sep cs with
    | [] => [[]]
    | h :: t => if c = sep then [] :: h :: t else (c :: h) :: t

/-- `line.split("=")[-1]` (line 131): the piece after the last `=`
(the whole line when there is no `=`). -/
def extractAfterEq (line : String) : String :=
  ⟨(splitOnChar '=' line.data).getLastD []⟩

/-- `line.split("=")[-1].split(",")[0]` (line 138): the piece after the last
`=`, then the piece before the first `,` of that remainder. -/
def extractPos (line : String) : String :=
  ⟨((splitOnChar ',' ((splitOnChar '=' line.data).getLastD [])).headD [])⟩

/-- Modelled from the spec: the `PrimerCandidate` data model (`Primer` in the
repository module `prinia/models.py`, which is not part of the sources under
verification).  Per spec section 3 it carries the two primer sequences, the
two positions (the offset text retained after discarding the trailing length
component) and the two GC-percent texts, exactly the six values computed by
`_parse_single_pair_id`. -/
structure Primer where
  left : String
  right : String
  left_gc : String
  right_gc : String
  left_pos : String
  right_pos : String
deriving DecidableEq

/-- The message of the `ValueError` raised in the first loop of
`_parse_single_pair_id` (lines 129-130). -/
def valueMsg (n : String) : String :=
  "Value for " ++ n ++ " must have exactly one match"

/-- The message of the `ValueError` raised in the second loop of
`_parse_single_pair_id` (lines 136-137); the source misspells "Value". -/
def valeMsg (n : String) : String :=
  "Vale for " ++ n ++ " must have exactly one match"

/-- One step of the loops of `_parse_single_pair_id`: `if len(val) != 1:
raise ValueError(...)` then use `val[0]` (lines 124-138). -/
def exactlyOne (msg : String) (l : List String) : Except String String :=
  if l.length = 1 then .ok (l.headD "") else .error msg

/-- `_parse_single_pair_id(id, lines)` (src/prinia/primer3.py lines 107-140):
filter the lines by the six startswith keys, check each filtered list has
exactly one element (first the four seq/gc fields in loop order, then the two
position fields), extract field values, build the `Primer`. -/
def parse_single_pair_id (id : Nat) (lines : List String) : Except String Primer := do
  let lseq ← exactlyOne (valueMsg "left") (linesWith (left_seq_key id) lines)
  let rseq ← exactlyOne (valueMsg "right") (linesWith (right_seq_key id) lines)
  let lgc ← exactlyOne (valueMsg "left_gc") (linesWith (left_gc_key id) lines)
  let rgc ← exactlyOne (valueMsg "right_gc") (linesWith (right_gc_key id) lines)
  let lpos ← exactlyOne (valeMsg "left_pos") (linesWith (left_pos_key id) lines)
  let rpos ← exactlyOne (valeMsg "right_pos") (linesWith (right_pos_key id) lines)
  return { left := extractAfterEq lseq, right := extractAfterEq rseq,
           left_gc := extractAfterEq lgc, right_gc := extractAfterEq rgc,
           left_pos := extractPos lpos, right_pos := extractPos rpos }

/-- Run a fallible computation over each list element in order, stopping at
the first error; the semantics of exhausting the generator
`parse_primer3_output` (a raised `ValueError` aborts the whole iteration and
discards all previously produced items). -/
def mapExcept {α β : Type} (f : α → Except String β) : List α → Except String (List β)
  | [] => .ok []
  | x :: xs => do
    let y ← f x
    let ys ← mapExcept f xs
    return y :: ys

/-- `parse_primer3_output(lines)` (src/prinia/primer3.py lines 143-151), run
to completion: one `Primer` per discovered pair id, in discovery order. -/
def parse_primer3_output (lines : List String) : Except String (List Primer) :=
  mapExcept (fun id => parse_single_pair_id id lines) (pairIds lines)

/-- Truncation toward zero of a rational, the semantics of Python `int()`
applied to a float holding an exact half-integer value. -/
def pytrunc (q : Rat) : Int := if q < 0 then -⌊-q⌋ else ⌊q⌋

/-- The `Primer3` object of src/prinia/primer3.py (lines 10-25): the design
parameters handed to the oracle.  Python ints are modelled by `Int`, the
sequence/region texts by `String`. -/
structure Primer3 where
  primer3_exe : String
  template : String
  target : String
  excluded_region : String
  opt_prim_length : Int
  opt_gc_perc : Int
  min_melting_t : Int
  max_melting_t : Int
  min_product_size : Int
  max_product_size : Int

/-- The `range` property (lines 27-29):
`"{0}-{1}".format(min_product_size, max_product_size)`. -/
def Primer3.range (p : Primer3) : String :=
  intRepr p.min_product_size ++ "-" ++ intRepr p.max_product_size

/-- The `opt_size` property (lines 31-36):
`int(min_product_size + float(max_product_size - min_product_size) / 2)`,
modelled exactly over the rationals. -/
def Primer3.opt_size (p : Primer3) : Int :=
  pytrunc ((p.min_product_size : Rat) +
    ((p.max_product_size : Rat) - (p.min_product_size : Rat)) / 2)

/-- The lines of the configuration text built by `create_config`
(src/prinia/primer3.py lines 38-84), in source order; the source writes them
joined by newlines. -/
def Primer3.configLines (p : Primer3) : List String :=
  [ "SEQUENCE_ID=example",
    "SEQUENCE_TEMPLATE=" ++ p.template,
    "SEQUENCE_TARGET=" ++ p.target,
    "SEQUENCE_EXCLUDED_REGION=" ++ p.excluded_region,
    "PRIMER_TASK=pick_detection_primers",
    "PRIMER_PICK_LEFT_PRIMER=1",
    "PRIMER_PICK_INTERNAL_OLIGO=0",
    "PRIMER_PICK_RIGHT_PRIMER=1",
    "PRIMER_MIN_GC=20.0",
    "PRIMER_INTERNAL_MIN_GC=20.0",
    "PRIMER_OPT_GC_PERCENT=" ++ intRepr p.opt_gc_perc,
    "PRIMER_MAX_GC=80.0",
    "PRIMER_INTERNAL_MAX_GC=80.0",
    "PRIMER_WT_GC_PERCENT_LT=0.0",
    "PRIMER_INTERNAL_WT_GC_PERCENT_LT=0.0",
    "PRIMER_GC_CLAMP=0",
    "PRIMER_MAX_END_GC=5",
    "PRIMER_OPT_SIZE=" ++ intRepr p.opt_prim_length,
    "PRIMER_MIN_SIZE=" ++ intRepr (p.opt_prim_length - 5),
    "PRIMER_MAX_SIZE=" ++ intRepr (p.opt_prim_length + 5),
    "PRIMER_MAX_NS_ACCEPTED=0",
    "PRIMER_PRODUCT_SIZE_RANGE=" ++ p.range,
    "PRIMER_PRODUCT_OPT_SIZE=" ++ intRepr p.opt_size,
    "PRIMER_PAIR_WT_PRODUCT_SIZE_GT=0.1",
    "PRIMER_PAIR_WT_PRODUCT_SIZE_LT=0.1",
    "P3_FILE_FLAG=1",
    "SEQUENCE_INTERNAL_EXCLUDED_REGION=37,21",
    "PRIMER_EXPLAIN_FLAG=1",
    "PRIMER_MIN_TM=" ++ intRepr p.min_melting_t,
    "PRIMER_MAX_TM=" ++ intRepr p.max_melting_t,
    "PRIMER_NUM_RETURN=200",
    "=" ]

/-- `create_config` (lines 38-84): the configuration text written to the
handle, the lines above joined by newlines. -/
def Primer3.create_config (p : Primer3) : String :=
  String.intercalate "\n" p.configLines

/-- Behavior of the external oracle process for one invocation: the
executable may be unrunnable (`OSError` from `check_call`), or it runs,
exits with a code, and leaves lines in the result file. -/
inductive OracleBehavior where
  | notRunnable
  | runs (exitCode : Int) (resultLines : List String)

/-- The exceptions that can escape `Primer3.run`. -/
inductive RunError where
  | oserror
  | calledProcessError (code : Int)
  | ioError
deriving DecidableEq

/-- Observable outcome of `Primer3.run`: the returned value or propagated
exception, together with the final filesystem/handle state of the two
transient files. -/
structure RunResult where
  result : Except RunError (List String)
  cfgContent : String
  cfgRemoved : Bool
  outClosed : Bool

/-- `Primer3.run` (src/prinia/primer3.py lines 86-104) as explicit state
passing.  The config tempfile is created with `delete=False` and written;
`check_call` either raises `OSError` (executable unrunnable), raises
`CalledProcessError` (non-zero exit) or returns; then the result file is
read (which may raise an IO error), and only after a successful read does
the code reach `out.close()` and `os.remove(cfg.name)`.  There is no
`try`/`finally`: on the exception paths the function exits without removing
the config file or closing the result file handle. -/
def Primer3.run (p : Primer3) (b : OracleBehavior) (readable : Bool) : RunResult :=
  match b with
  | .notRunnable =>
    { result := .error .oserror, cfgContent := p.create_config,
      cfgRemoved := false, outClosed := false }
  | .runs code outLines =>
    if code ≠ 0 then
      { result := .error (.calledProcessError code), cfgContent := p.create_config,
        cfgRemoved := false, outClosed := false }
    else if !readable then
      { result := .error .ioError, cfgContent := p.create_config,
        cfgRemoved := false, outClosed := false }
    else
      { result := .ok (outLines.map String.trim), cfgContent := p.create_config,
        cfgRemoved := true, outClosed := true }

/-- The six possible `ValueError` messages of `_parse_single_pair_id`, in
check order.  Each is a fixed string depending only on the field name. -/
def cardinalityMsgs : List String :=
  [valueMsg "left", valueMsg "right", valueMsg "left_gc", valueMsg "right_gc",
   valeMsg "left_pos", valeMsg "right_pos"]

/-- The six startswith lookup keys `_parse_single_pair_id` builds for a pair
index (lines 109-114). -/
def keysOf (id : Nat) : List String :=
  [left_seq_key id, right_seq_key id, left_pos_key id, right_pos_key id,
   left_gc_key id, right_gc_key id]

/-- A complete, well-formed result record for pair index 0. -/
def exComplete0 : List String :=
  [ "PRIMER_LEFT_0_SEQUENCE=ACGTACGTAC",
    "PRIMER_RIGHT_0_SEQUENCE=TTTTGGGG",
    "PRIMER_LEFT_0=10,20",
    "PRIMER_RIGHT_0=50,20",
    "PRIMER_LEFT_0_GC_PERCENT=50.0",
    "PRIMER_RIGHT_0_GC_PERCENT=40.0" ]

/-- Result text complete for index 0 except that the `PRIMER_RIGHT_0=`
position line is missing entirely. -/
def exMissingRight0 : List String :=
  [ "PRIMER_LEFT_0_SEQUENCE=ACGTACGTAC",
    "PRIMER_RIGHT_0_SEQUENCE=TTTTGGGG",
    "PRIMER_LEFT_0=10,20",
    "PRIMER_LEFT_0_GC_PERCENT=50.0",
    "PRIMER_RIGHT_0_GC_PERCENT=40.0" ]

/-- Result text complete for index 1 except that the `PRIMER_RIGHT_1=`
position line is missing entirely; the failing index here is 1, not 0. -/
def exMissingRight1 : List String :=
  [ "PRIMER_LEFT_1_SEQUENCE=CCCGGGAATT",
    "PRIMER_RIGHT_1_SEQUENCE=AACCGGTT",
    "PRIMER_LEFT_1=77,20",
    "PRIMER_LEFT_1_GC_PERCENT=52.0",
    "PRIMER_RIGHT_1_GC_PERCENT=48.0" ]

/-- Result text in which `PRIMER_LEFT_0_SEQUENCE=` appears twice. -/
def exDupLeft0 : List String :=
  [ "PRIMER_LEFT_0_SEQUENCE=ACGTACGTAC",
    "PRIMER_LEFT_0_SEQUENCE=ACGTACGTAC",
    "PRIMER_RIGHT_0_SEQUENCE=TTTTGGGG",
    "PRIMER_LEFT_0=10,20",
    "PRIMER_RIGHT_0=50,20",
    "PRIMER_LEFT_0_GC_PERCENT=50.0",
    "PRIMER_RIGHT_0_GC_PERCENT=40.0" ]

/-- A complete record for index 0 whose left-sequence value itself contains
an `=` character. -/
def exValueWithEq : List String :=
  [ "PRIMER_LEFT_0_SEQUENCE=A=B",
    "PRIMER_RIGHT_0_SEQUENCE=TTTTGGGG",
    "PRIMER_LEFT_0=137,20",
    "PRIMER_RIGHT_0=50,20",
    "PRIMER_LEFT_0_GC_PERCENT=50.0",
    "PRIMER_RIGHT_0_GC_PERCENT=40.0" ]

/-- Result text whose pair indices appear in line order 3, 1, 2, each with a
complete set of six fields. -/
def ex312 : List String :=
  [ "PRIMER_LEFT_3_SEQUENCE=CCC",
    "PRIMER_LEFT_1_SEQUENCE=AAA",
    "PRIMER_LEFT_2_SEQUENCE=GGG",
    "PRIMER_RIGHT_3_SEQUENCE=CCG",
    "PRIMER_RIGHT_1_SEQUENCE=AAG",
    "PRIMER_RIGHT_2_SEQUENCE=GGA",
    "PRIMER_LEFT_3=30,20",
    "PRIMER_LEFT_1=11,20",
    "PRIMER_LEFT_2=22,20",
    "PRIMER_RIGHT_3=300,20",
    "PRIMER_RIGHT_1=111,20",
    "PRIMER_RIGHT_2=222,20",
    "PRIMER_LEFT_3_GC_PERCENT=33.3",
    "PRIMER_LEFT_1_GC_PERCENT=11.1",
    "PRIMER_LEFT_2_GC_PERCENT=22.2",
    "PRIMER_RIGHT_3_GC_PERCENT=66.6",
    "PRIMER_RIGHT_1_GC_PERCENT=44.4",
    "PRIMER_RIGHT_2_GC_PERCENT=55.5" ]

/-- Result text with complete records for indices 0 and 1 followed by a
malformed index 2 (its `PRIMER_RIGHT_2_SEQUENCE=` line is missing). -/
def exPartial : List String :=
  [ "PRIMER_LEFT_0_SEQUENCE=ACGTACGTAC",
    "PRIMER_RIGHT_0_SEQUENCE=TTTTGGGG",
    "PRIMER_LEFT_0=10,20",
    "PRIMER_RIGHT_0=50,20",
    "PRIMER_LEFT_0_GC_PERCENT=50.0",
    "PRIMER_RIGHT_0_GC_PERCENT=40.0",
    "PRIMER_LEFT_1_SEQUENCE=CCCGGGAATT",
    "PRIMER_RIGHT_1_SEQUENCE=AACCGGTT",
    "PRIMER_LEFT_1=77,20",
    "PRIMER_RIGHT_1=300,20",
    "PRIMER_LEFT_1_GC_PERCENT=52.0",
    "PRIMER_RIGHT_1_GC_PERCENT=48.0",
    "PRIMER_LEFT_2_SEQUENCE=GGAATTCC",
    "PRIMER_LEFT_2=140,20",
    "PRIMER_RIGHT_2=400,20",
    "PRIMER_LEFT_2_GC_PERCENT=50.0",
    "PRIMER_RIGHT_2_GC_PERCENT=50.0" ]

/-- A concrete `Primer3` parameter value (the defaults of the constructor,
with the end-to-end scenario product range 200-400 of spec section 8). -/
def pEx : Primer3 :=
  { primer3_exe := "primer3_core", template := "ACGTACGT", target := "100,10",
    excluded_region := "0,20", opt_prim_length := 25, opt_gc_perc := 50,
    min_melting_t := 58, max_melting_t := 62, min_product_size := 200,
    max_product_size := 400 }

/-! ## Decimal rendering lemmas -/

theorem digitChar_isDigit : ∀ n < 10, (Nat.digitChar n).isDigit = true := by decide

theorem digitChar_val : ∀ n < 10, (Nat.digitChar n).toNat - 48 = n := by decide

theorem natDigitsCore_acc (fuel : Nat) : ∀ n acc, n < fuel →
    natDigitsCore fuel n acc = natDigitsCore fuel n [] ++ acc := by
  induction fuel with
  | zero => intro n acc h; omega
  | succ f ih =>
    intro n acc _
    by_cases h10 : n < 10
    · simp [natDigitsCore, h10]
    · have hlt : n / 10 < f := by omega
      simp only [natDigitsCore, if_neg h10]
      rw [ih _ _ hlt, ih _ (Nat.digitChar (n % 10) :: []) hlt]
      simp

theorem natDigitsCore_fuel (f₁ : Nat) : ∀ f₂ n, n < f₁ → n < f₂ →
    natDigitsCore f₁ n [] = natDigitsCore f₂ n [] := by
  induction f₁ with
  | zero => intro f₂ n h; omega
  | succ g₁ ih =>
    intro f₂ n h₁ h₂
    match f₂, h₂ with
    | g₂ + 1, h₂ =>
      by_cases h10 : n < 10
      · simp [natDigitsCore, h10]
      · have l₁ : n / 10 < g₁ := by omega
        have l₂ : n / 10 < g₂ := by omega
        simp only [natDigitsCore, if_neg h10]
        rw [natDigitsCore_acc g₁ _ _ l₁, natDigitsCore_acc g₂ _ _ l₂, ih _ _ l₁ l₂]

theorem natDigits_unfold (n : Nat) :
    natDigits n = if n < 10 then [Nat.digitChar n]
                  else natDigits (n / 10) ++ [Nat.digitChar (n % 10)] := by
  by_cases h10 : n < 10
  · simp [natDigits, natDigitsCore, h10]
  · have h1 : n / 10 < n := by omega
    have h2 : n / 10 < n / 10 + 1 := by omega
    have step : natDigits n = natDigitsCore n (n / 10) [Nat.digitChar (n % 10)] := by
      simp [natDigits, natDigitsCore, h10]
    rw [step, natDigitsCore_acc n _ _ h1, natDigitsCore_fuel n _ _ h1 h2, if_neg h10]
    rfl

theorem natDigits_all_digits (n : Nat) : ∀ c ∈ natDigits n, c.isDigit = true := by
  induction n using Nat.strong_induction_on with
  | _ n ih =>
    rw [natDigits_unfold]
    by_cases h10 : n < 10
    · simp only [if_pos h10, List.mem_singleton]
      rintro c rfl
      exact digitChar_isDigit n h10
    · simp only [if_neg h10, List.mem_append, List.mem_singleton]
      rintro c (hc | rfl)
      · exact ih (n / 10) (by omega) c hc
      · exact digitChar_isDigit (n % 10) (by omega)

theorem natDigits_ne_nil (n : Nat) : natDigits n ≠ [] := by
  rw [natDigits_unfold]
  by_cases h10 : n < 10 <;> simp [h10]

theorem digitsVal_natDigits (n : Nat) : digitsVal (natDigits n) = n := by
  induction n using Nat.strong_induction_on with
  | _ n ih =>
    rw [natDigits_unfold]
    by_cases h10 : n < 10
    · simp only [if_pos h10, digitsVal, List.foldl_cons, List.foldl_nil]
      rw [digitChar_val n h10]
      omega
    · simp only [if_neg h10, digitsVal, List.foldl_append, List.foldl_cons, List.foldl_nil]
      have hv := ih (n / 10) (by omega)
      rw [digitsVal] at hv
      rw [hv, digitChar_val (n % 10) (by omega)]
      omega

theorem natDigits_inj {m n : Nat} (h : natDigits m = natDigits n) : m = n := by
  have := congrArg digitsVal h
  rwa [digitsVal_natDigits, digitsVal_natDigits] at this

theorem natRepr_inj {m n : Nat} (h : natRepr m = natRepr n) : m = n :=
  natDigits_inj (congrArg String.data h)

/-! ## List-of-characters helper lemmas -/

theorem dropPfx_append (p r : List Char) : dropPfx p (p ++ r) = some r := by
  induction p with
  | nil => rfl
  | cons c cs ih => simp [dropPfx, ih]

theorem takeWhile_digit_block {p : Char → Bool} (xs : List Char) (y : Char) (ys : List Char)
    (hxs : ∀ c ∈ xs, p c = true) (hy : p y = false) :
    (xs ++ y :: ys).takeWhile p = xs := by
  induction xs with
  | nil => simp [List.takeWhile, hy]
  | cons c cs ih =>
    have hc : p c = true := hxs c (by simp)
    simp only [List.cons_append, List.takeWhile_cons, hc, if_true]
    rw [ih (fun d hd => hxs d (by simp [hd]))]

theorem dropWhile_digit_block {p : Char → Bool} (xs : List Char) (y : Char) (ys : List Char)
    (hxs : ∀ c ∈ xs, p c = true) (hy : p y = false) :
    (xs ++ y :: ys).dropWhile p = y :: ys := by
  induction xs with
  | nil => simp [List.dropWhile, hy]
  | cons c cs ih =>
    have hc : p c = true := hxs c (by simp)
    simp only [List.cons_append, List.dropWhile_cons, hc, if_true]
    exact ih (fun d hd => hxs d (by simp [hd]))

theorem splitOnChar_ne_nil (sep : Char) (cs : List Char) : splitOnChar sep cs ≠ [] := by
  cases cs with
  | nil => simp [splitOnChar]
  | cons c cs =>
    simp only [splitOnChar]
    match h : splitOnChar sep cs with
    | [] => simp
    | h' :: t => by_cases hc : c = sep <;> simp [hc]

theorem splitOnChar_no_sep (sep : Char) (cs : List Char) (h : ∀ c ∈ cs, c ≠ sep) :
    splitOnChar sep cs = [cs] := by
  induction cs with
  | nil => rfl
  | cons c cs ih =>
    have hrec := ih (fun d hd => h d (by simp [hd]))
    simp only [splitOnChar, hrec]
    rw [if_neg (h c (by simp))]

theorem splitOnChar_two_le (sep : Char) (cs : List Char) (h : sep ∈ cs) :
    2 ≤ (splitOnChar sep cs).length := by
  induction cs with
  | nil => simp at h
  | cons c cs ih =>
    simp only [splitOnChar]
    match hr : splitOnChar sep cs with
    | [] => exact absurd hr (splitOnChar_ne_nil sep cs)
    | h' :: t =>
      show 2 ≤ (if c = sep then [] :: h' :: t else (c :: h') :: t).length
      by_cases hc : c = sep
      · simp [hc]
      · have hmem : sep ∈ cs := by
          rcases List.mem_cons.mp h with h1 | h1
          · exact absurd h1.symm hc
          · exact h1
        have hl := ih hmem
        rw [hr] at hl
        rw [if_neg hc]
        simp only [List.length_cons] at hl ⊢
        omega

theorem splitOnChar_getLastD (sep : Char) (pre post : List Char)
    (h : ∀ c ∈ post, c ≠ sep) :
    (splitOnChar sep (pre ++ sep :: post)).getLastD [] = post := by
  induction pre with
  | nil =>
    simp only [List.nil_append, splitOnChar, splitOnChar_no_sep sep post h, if_pos rfl]
    rfl
  | cons x xs ih =>
    simp only [List.cons_append, splitOnChar]
    match hr : splitOnChar sep (xs ++ sep :: post) with
    | [] => exact absurd hr (splitOnChar_ne_nil sep _)
    | h' :: t =>
      have hlen : 2 ≤ (h' :: t).length := by
        rw [← hr]; exact splitOnChar_two_le sep _ (by simp)
      have ht : t ≠ [] := by
        intro hnil; rw [hnil] at hlen; simp at hlen
      rw [hr] at ih
      show (if x = sep then [] :: h' :: t else (x :: h') :: t).getLastD [] = post
      by_cases hx : x = sep
      · rw [if_pos hx, List.getLastD_cons, List.getLastD_cons]
        rw [List.getLastD_cons] at ih
        exact ih
      · rw [if_neg hx, List.getLastD_cons]
        rw [List.getLastD_cons] at ih
        match t, ht with
        | y :: ys, _ =>
          rw [List.getLastD_cons] at ih ⊢
          exact ih

theorem splitOnChar_headD (sep : Char) (a b : List Char) (h : ∀ c ∈ a, c ≠ sep) :
    (splitOnChar sep (a ++ sep :: b)).headD [] = a := by
  induction a with
  | nil =>
    simp only [List.nil_append, splitOnChar, if_pos rfl]
    match hr : splitOnChar sep b with
    | [] => exact absurd hr (splitOnChar_ne_nil sep b)
    | h' :: t => rfl
  | cons x xs ih =>
    have hx : x ≠ sep := h x (by simp)
    simp only [List.cons_append, splitOnChar]
    match hr : splitOnChar sep (xs ++ sep :: b) with
    | [] => exact absurd hr (splitOnChar_ne_nil sep _)
    | h' :: t =>
      rw [hr] at ih
      have hxs := ih (fun d hd => h d (by simp [hd]))
      simp only [List.headD_cons] at hxs
      show (if x = sep then [] :: h' :: t else (x :: h') :: t).headD [] = x :: xs
      rw [if_neg hx]
      simp only [List.headD_cons]
      rw [hxs]

/-! ## Prefix-disjointness machinery for index-parameterized keys -/

theorem data_append (s t : String) : (s ++ t).data = s.data ++ t.data := rfl

theorem natRepr_data (n : Nat) : (natRepr n).data = natDigits n := rfl

/-- If two lines each consist of a block of digit characters followed by a
non-digit character, and one is a prefix of the other, the digit blocks are
equal. -/
theorem digits_block_eq (d₁ : List Char) : ∀ (d₂ : List Char) (c₁ c₂ : Char)
    (r₁ r₂ : List Char), (∀ c ∈ d₁, c.isDigit = true) → (∀ c ∈ d₂, c.isDigit = true) →
    c₁.isDigit = false → c₂.isDigit = false →
    (d₁ ++ c₁ :: r₁) <+: (d₂ ++ c₂ :: r₂) → d₁ = d₂ := by
  induction d₁ with
  | nil =>
    intro d₂ c₁ c₂ r₁ r₂ _ hd₂ hc₁ _ h
    cases d₂ with
    | nil => rfl
    | cons b bs =>
      simp only [List.nil_append, List.cons_append, List.cons_prefix_cons] at h
      have hb : b.isDigit = true := hd₂ b (by simp)
      rw [h.1] at hc₁
      rw [hc₁] at hb
      exact absurd hb (by decide)
  | cons a as ih =>
    intro d₂ c₁ c₂ r₁ r₂ hd₁ hd₂ hc₁ hc₂ h
    cases d₂ with
    | nil =>
      simp only [List.nil_append, List.cons_append, List.cons_prefix_cons] at h
      have ha : a.isDigit = true := hd₁ a (by simp)
      rw [h.1] at ha
      rw [hc₂] at ha
      exact absurd ha (by decide)
    | cons b bs =>
      simp only [List.cons_append, List.cons_prefix_cons] at h
      have := ih bs c₁ c₂ r₁ r₂ (fun c hc => hd₁ c (by simp [hc]))
        (fun c hc => hd₂ c (by simp [hc])) hc₁ hc₂ h.2
      rw [h.1, this]

/-- Keys of two distinct indices with a common literal head never overlap:
the digit blocks would have to agree. -/
theorem same_side_no_overlap (w : List Char) {i j : Nat} (hij : i ≠ j) {c₁ c₂ : Char}
    (h₁ : c₁.isDigit = false) (h₂ : c₂.isDigit = false) (r₁ r₂ : List Char) :
    ¬ (w ++ (natDigits i ++ (c₁ :: r₁))) <+: (w ++ (natDigits j ++ (c₂ :: r₂))) := by
  intro h
  rw [List.prefix_append_right_inj] at h
  exact hij (natDigits_inj (digits_block_eq _ _ _ _ _ _ (natDigits_all_digits i)
    (natDigits_all_digits j) h₁ h₂ h))

theorem sameL {i j : Nat} (hij : i ≠ j) {c₁ c₂ : Char} (h₁ : c₁.isDigit = false)
    (h₂ : c₂.isDigit = false) (r₁ r₂ : List Char) :
    ¬ ('P' :: 'R' :: 'I' :: 'M' :: 'E' :: 'R' :: '_' :: 'L' :: 'E' :: 'F' :: 'T' :: '_' ::
        (natDigits i ++ (c₁ :: r₁))) <+:
      ('P' :: 'R' :: 'I' :: 'M' :: 'E' :: 'R' :: '_' :: 'L' :: 'E' :: 'F' :: 'T' :: '_' ::
        (natDigits j ++ (c₂ :: r₂))) :=
  same_side_no_overlap ['P', 'R', 'I', 'M', 'E', 'R', '_', 'L', 'E', 'F', 'T', '_']
    hij h₁ h₂ r₁ r₂

theorem sameR {i j : Nat} (hij : i ≠ j) {c₁ c₂ : Char} (h₁ : c₁.isDigit = false)
    (h₂ : c₂.isDigit = false) (r₁ r₂ : List Char) :
    ¬ ('P' :: 'R' :: 'I' :: 'M' :: 'E' :: 'R' :: '_' :: 'R' :: 'I' :: 'G' :: 'H' :: 'T' :: '_' ::
        (natDigits i ++ (c₁ :: r₁))) <+:
      ('P' :: 'R' :: 'I' :: 'M' :: 'E' :: 'R' :: '_' :: 'R' :: 'I' :: 'G' :: 'H' :: 'T' :: '_' ::
        (natDigits j ++ (c₂ :: r₂))) :=
  same_side_no_overlap ['P', 'R', 'I', 'M', 'E', 'R', '_', 'R', 'I', 'G', 'H', 'T', '_']
    hij h₁ h₂ r₁ r₂

theorem cross_head_LR (x y : List Char) :
    ¬ ('P' :: 'R' :: 'I' :: 'M' :: 'E' :: 'R' :: '_' :: 'L' :: x) <+:
      ('P' :: 'R' :: 'I' :: 'M' :: 'E' :: 'R' :: '_' :: 'R' :: y) := by
  intro h
  simp only [List.cons_prefix_cons] at h
  obtain ⟨-, -, -, -, -, -, -, h8, -⟩ := h
  exact absurd h8 (by decide)

theorem cross_head_RL (x y : List Char) :
    ¬ ('P' :: 'R' :: 'I' :: 'M' :: 'E' :: 'R' :: '_' :: 'R' :: x) <+:
      ('P' :: 'R' :: 'I' :: 'M' :: 'E' :: 'R' :: '_' :: 'L' :: y) := by
  intro h
  simp only [List.cons_prefix_cons] at h
  obtain ⟨-, -, -, -, -, -, -, h8, -⟩ := h
  exact absurd h8 (by decide)

/-! ## mapExcept lemmas -/

theorem mapExcept_ok_correspond {α β : Type} (f : α → Except String β) :
    ∀ (xs : List α) (ys : List β), mapExcept f xs = .ok ys →
    ys.length = xs.length ∧
    ∀ k (hk : k < xs.length) (hk' : k < ys.length),
      f (xs.get ⟨k, hk⟩) = .ok (ys.get ⟨k, hk'⟩) := by
  intro xs
  induction xs with
  | nil =>
    intro ys h
    simp only [mapExcept, Except.ok.injEq] at h
    subst h
    refine ⟨rfl, ?_⟩
    intro k hk
    simp at hk
  | cons x xs ih =>
    intro ys h
    simp only [mapExcept] at h
    cases hf : f x with
    | error e =>
      rw [hf] at h
      simp [Bind.bind, Except.bind] at h
    | ok y =>
      rw [hf] at h
      cases hm : mapExcept f xs with
      | error e =>
        rw [hm] at h
        simp [Bind.bind, Except.bind] at h
      | ok ys' =>
        rw [hm] at h
        simp only [Bind.bind, Except.bind, pure, Except.pure, Except.ok.injEq] at h
        subst h
        obtain ⟨hl, hp⟩ := ih ys' hm
        refine ⟨by simp [hl], ?_⟩
        intro k hk hk'
        cases k with
        | zero => simpa using hf
        | succ k =>
          simp only [List.length_cons, Nat.succ_lt_succ_iff] at hk hk'
          simpa using hp k hk hk'

theorem mapExcept_error_of_mem {α β : Type} (f : α → Except String β) :
    ∀ (xs : List α) (x : α), x ∈ xs → (f x).isOk = false →
    ∃ e, mapExcept f xs = .error e := by
  intro xs
  induction xs with
  | nil => intro x hx; simp at hx
  | cons y ys ih =>
    intro x hx hfx
    cases hf : f y with
    | error e => exact ⟨e, by simp [mapExcept, Bind.bind, Except.bind, hf]⟩
    | ok b =>
      rcases List.mem_cons.mp hx with rfl | hmem
      · rw [hf] at hfx
        simp [Except.isOk, Except.toBool] at hfx
      · obtain ⟨e, he⟩ := ih x hmem hfx
        exact ⟨e, by simp [mapExcept, Bind.bind, Except.bind, hf, he]⟩


/-! ## Claim theorems -/

/-- C7: for every parameter value, `create_config` emits the fixed,
parameter-independent fields with their fixed values — GC bounds 20.0/80.0
for both primer types, zero GC clamp, at most five 3-prime-terminal GC bases,
zero ambiguity bases accepted, explain flag on, and a return cap of exactly
200 candidate pairs — one KEY=VALUE per line, with the whole output
terminated by a line containing only `=`. -/
theorem config_fixed_fields (p : Primer3) :
    "PRIMER_MIN_GC=20.0" ∈ p.configLines ∧
    "PRIMER_INTERNAL_MIN_GC=20.0" ∈ p.configLines ∧
    "PRIMER_MAX_GC=80.0" ∈ p.configLines ∧
    "PRIMER_INTERNAL_MAX_GC=80.0" ∈ p.configLines ∧
    "PRIMER_GC_CLAMP=0" ∈ p.configLines ∧
    "PRIMER_MAX_END_GC=5" ∈ p.configLines ∧
    "PRIMER_MAX_NS_ACCEPTED=0" ∈ p.configLines ∧
    "PRIMER_EXPLAIN_FLAG=1" ∈ p.configLines ∧
    "PRIMER_NUM_RETURN=200" ∈ p.configLines ∧
    p.configLines.getLast? = some "=" ∧
    p.create_config = String.intercalate "\n" p.configLines := by
  refine ⟨?_, ?_, ?_, ?_, ?_, ?_, ?_, ?_, ?_, rfl, rfl⟩ <;>
    simp [Primer3.configLines]

/-- C5 counterexample: a failed oracle invocation (exit code 1) exits with
the transient configuration file still present and the result file handle
still open, refuting deletion on every exit path. -/
theorem run_leak_counterexample :
    (pEx.run (.runs 1 []) true).result = .error (.calledProcessError 1) ∧
    (pEx.run (.runs 1 []) true).cfgRemoved = false ∧
    (pEx.run (.runs 1 []) true).outClosed = false :=
  ⟨rfl, rfl, rfl⟩

/-- C5 amended: `Primer3.run` removes the transient configuration file and
closes the result file handle exactly when the invocation succeeds (oracle
exits 0 and the result file is readable); on every failing exit path both
survive. -/
theorem run_cleanup_only_on_success (p : Primer3) (b : OracleBehavior) (readable : Bool) :
    ((p.run b readable).cfgRemoved = true ↔ (p.run b readable).result.isOk = true) ∧
    ((p.run b readable).outClosed = true ↔ (p.run b readable).result.isOk = true) := by
  cases b with
  | notRunnable => simp [Primer3.run, Except.isOk, Except.toBool]
  | runs code outLines =>
    by_cases hc : code ≠ 0
    · simp [Primer3.run, hc, Except.isOk, Except.toBool]
    · by_cases hr : readable <;>
        simp [Primer3.run, hc, hr, Except.isOk, Except.toBool]

/-- C8: the output decoder is a pure function of the line sequence — equal
inputs give equal outputs, and decoding the same input any number of times
can only produce one result. -/
theorem parse_pure_deterministic (l₁ l₂ : List String) (h : l₁ = l₂) :
    parse_primer3_output l₁ = parse_primer3_output l₂ ∧
    ∀ r₁ r₂ : Except String (List Primer),
      parse_primer3_output l₁ = r₁ → parse_primer3_output l₁ = r₂ → r₁ = r₂ := by
  subst h
  exact ⟨rfl, fun r₁ r₂ e₁ e₂ => e₁.symm.trans e₂⟩

/-- C8 witness: decoding the concrete complete record twice gives the same
result both times. -/
theorem parse_pure_deterministic_witness :
    parse_primer3_output exComplete0 = parse_primer3_output exComplete0 :=
  (parse_pure_deterministic exComplete0 exComplete0 rfl).1

/-- The `opt_size` property computes the truncating integer formula
`min + (max - min) / 2` whenever the spec invariant on the product sizes
(positive, min below max) holds. -/
theorem opt_size_spec (p : Primer3) (h1 : 0 < p.min_product_size)
    (h2 : p.min_product_size < p.max_product_size) :
    p.opt_size = p.min_product_size + (p.max_product_size - p.min_product_size).tdiv 2 := by
  unfold Primer3.opt_size pytrunc
  have hd : (0 : Int) < p.max_product_size - p.min_product_size := by omega
  have hcast : ((p.max_product_size : Rat) - (p.min_product_size : Rat)) =
      ((p.max_product_size - p.min_product_size : Int) : Rat) := by push_cast; ring
  rw [hcast]
  have hq : ¬ ((p.min_product_size : Rat) +
      ((p.max_product_size - p.min_product_size : Int) : Rat) / 2 < 0) := by
    push_neg
    have h1q : (1 : Rat) ≤ (p.min_product_size : Rat) := by exact_mod_cast h1
    have hdq : (0 : Rat) < ((p.max_product_size - p.min_product_size : Int) : Rat) := by
      exact_mod_cast hd
    have : (0 : Rat) < ((p.max_product_size - p.min_product_size : Int) : Rat) / 2 := by
      positivity
    linarith
  rw [if_neg hq]
  rw [add_comm ((p.min_product_size : Rat)) _, Int.floor_add_int]
  have h2r : ((2 : Rat)) = ((2 : Nat) : Rat) := by norm_num
  rw [h2r, Rat.floor_intCast_div_natCast]
  rw [Int.tdiv_eq_ediv (by omega) (by norm_num)]
  norm_num
  omega

/-- C4: under the spec invariant on `DesignParameters` (positive sizes, min
below max), the derived fields emitted by the encoder equal the values
computed directly from the parameters: the product size range line is
`<min>-<max>`, the optimum product size line is `min + (max - min) / 2` with
truncating integer division, and the primer min/max size lines are
`opt_primer_length - 5` and `opt_primer_length + 5`. -/
theorem config_derived_roundtrip (p : Primer3) (h1 : 0 < p.min_product_size)
    (h2 : p.min_product_size < p.max_product_size) :
    ("PRIMER_PRODUCT_SIZE_RANGE=" ++
      (intRepr p.min_product_size ++ "-" ++ intRepr p.max_product_size)) ∈ p.configLines ∧
    ("PRIMER_PRODUCT_OPT_SIZE=" ++
      (intRepr (p.min_product_size + (p.max_product_size - p.min_product_size).tdiv 2)))
      ∈ p.configLines ∧
    ("PRIMER_MIN_SIZE=" ++ intRepr (p.opt_prim_length - 5)) ∈ p.configLines ∧
    ("PRIMER_MAX_SIZE=" ++ intRepr (p.opt_prim_length + 5)) ∈ p.configLines := by
  refine ⟨?_, ?_, ?_, ?_⟩
  · simp [Primer3.configLines, Primer3.range]
  · rw [← opt_size_spec p h1 h2]
    simp [Primer3.configLines]
  · simp [Primer3.configLines]
  · simp [Primer3.configLines]

/-- C4 witness: at the concrete parameters (200-400 product range), the
encoder emits the expected derived lines. -/
theorem config_derived_roundtrip_witness :
    (0 : Int) < 200 ∧ (200 : Int) < 400 ∧
    ("PRIMER_PRODUCT_SIZE_RANGE=" ++ (intRepr 200 ++ "-" ++ intRepr 400)) ∈ pEx.configLines ∧
    ("PRIMER_PRODUCT_OPT_SIZE=" ++ (intRepr (200 + (400 - 200 : Int).tdiv 2)))
      ∈ pEx.configLines := by
  have h := config_derived_roundtrip pEx (by decide) (by decide)
  exact ⟨by decide, by decide, h.1, h.2.1⟩

/-- C6: if any discovered pair index fails the exactly-one cardinality
check, the decoder result for the whole invocation is an error carrying no
candidates at all — not a partial list for the earlier well-formed indices. -/
theorem parse_no_partial (lines : List String)
    (h : ∃ id ∈ pairIds lines, (parse_single_pair_id id lines).isOk = false) :
    ∃ e, parse_primer3_output lines = .error e := by
  obtain ⟨id, hmem, hfail⟩ := h
  exact mapExcept_error_of_mem _ (pairIds lines) id hmem hfail

/-- C6 witness: with complete records for indices 0 and 1 and a malformed
index 2, the whole decode is an error. -/
theorem parse_no_partial_witness :
    ∃ e, parse_primer3_output exPartial = .error e :=
  parse_no_partial exPartial ⟨2, by decide, by decide⟩

/-- C3: the decoder yields one candidate per discovered pair index, in
first-seen line order: in general the k-th returned candidate is decoded
from the k-th discovered index, and on the concrete input whose indices
appear in order 3, 1, 2 the candidates come out for 3, 1, 2 in that order,
not re-sorted numerically. -/
theorem parse_order :
    (∀ (lines : List String) (cs : List Primer), parse_primer3_output lines = .ok cs →
      cs.length = (pairIds lines).length ∧
      ∀ k (hk : k < (pairIds lines).length) (hk' : k < cs.length),
        parse_single_pair_id ((pairIds lines).get ⟨k, hk⟩) lines = .ok (cs.get ⟨k, hk'⟩)) ∧
    pairIds ex312 = [3, 1, 2] ∧
    parse_primer3_output ex312 = .ok
      [ { left := "CCC", right := "CCG", left_gc := "33.3", right_gc := "66.6",
          left_pos := "30", right_pos := "300" },
        { left := "AAA", right := "AAG", left_gc := "11.1", right_gc := "44.4",
          left_pos := "11", right_pos := "111" },
        { left := "GGG", right := "GGA", left_gc := "22.2", right_gc := "55.5",
          left_pos := "22", right_pos := "222" } ] := by
  refine ⟨?_, by rfl, by rfl⟩
  intro lines cs h
  exact mapExcept_ok_correspond _ (pairIds lines) cs h

/-- C3 witness: the general order correspondence applied to the concrete
3, 1, 2 input. -/
theorem parse_order_witness :
    ([ { left := "CCC", right := "CCG", left_gc := "33.3", right_gc := "66.6",
         left_pos := "30", right_pos := "300" },
       { left := "AAA", right := "AAG", left_gc := "11.1", right_gc := "44.4",
         left_pos := "11", right_pos := "111" },
       { left := "GGG", right := "GGA", left_gc := "22.2", right_gc := "55.5",
         left_pos := "22", right_pos := "222" } ] : List Primer).length =
      (pairIds ex312).length :=
  (parse_order.1 ex312 _ (by rfl)).1

/-- C10: a line of the exact form `PRIMER_LEFT_<k>_SEQUENCE=` with an empty
value is never discovered as a pair index — the regex demands at least one
character after the `=` — so it contributes no candidate and raises nothing
at the discovery step: discovery of the surrounding lines is unchanged. -/
theorem empty_value_not_discovered (k : Nat) :
    matchLeftSeq (left_seq_key k) = none ∧
    ∀ pre post : List String,
      pairIds (pre ++ left_seq_key k :: post) = pairIds (pre ++ post) := by
  have hdata : (left_seq_key k).data =
      "PRIMER_LEFT_".data ++ (natDigits k ++ "_SEQUENCE=".data) := by
    have h0 : (left_seq_key k).data =
        ("PRIMER_LEFT_".data ++ natDigits k) ++ "_SEQUENCE=".data := rfl
    rw [h0, List.append_assoc]
  have ht : "_SEQUENCE=".data = '_' :: "SEQUENCE=".data := rfl
  have htake : (natDigits k ++ "_SEQUENCE=".data).takeWhile Char.isDigit = natDigits k := by
    rw [ht]
    exact takeWhile_digit_block _ _ _ (natDigits_all_digits k) (by decide)
  have hdrop : (natDigits k ++ "_SEQUENCE=".data).dropWhile Char.isDigit
      = "_SEQUENCE=".data := by
    rw [ht]
    exact dropWhile_digit_block _ _ _ (natDigits_all_digits k) (by decide)
  have hpfx : dropPfx "_SEQUENCE=".data "_SEQUENCE=".data = some [] := by
    have h := dropPfx_append "_SEQUENCE=".data []
    rwa [List.append_nil] at h
  have hmatch : matchLeftSeq (left_seq_key k) = none := by
    simp only [matchLeftSeq, hdata, dropPfx_append, htake, hdrop, hpfx,
      if_neg (natDigits_ne_nil k)]
    rfl
  refine ⟨hmatch, ?_⟩
  intro pre post
  simp only [pairIds, List.filterMap_append]
  rw [List.filterMap_cons_none hmatch]

/-- C1 amended: decoding one pair index succeeds exactly when each of the six
field lookups matches exactly one line; otherwise it fails with one of six
fixed messages naming the failing field — messages that contain no digit and
hence never identify the pair index. -/
theorem parse_single_exactly_one (id : Nat) (lines : List String) :
    ((parse_single_pair_id id lines).isOk = true ↔
      ((linesWith (left_seq_key id) lines).length = 1 ∧
       (linesWith (right_seq_key id) lines).length = 1 ∧
       (linesWith (left_gc_key id) lines).length = 1 ∧
       (linesWith (right_gc_key id) lines).length = 1 ∧
       (linesWith (left_pos_key id) lines).length = 1 ∧
       (linesWith (right_pos_key id) lines).length = 1)) ∧
    ∀ e, parse_single_pair_id id lines = .error e →
      e ∈ cardinalityMsgs ∧ ∀ c ∈ e.data, c.isDigit = false := by
  by_cases h1 : (linesWith (left_seq_key id) lines).length = 1
  · by_cases h2 : (linesWith (right_seq_key id) lines).length = 1
    · by_cases h3 : (linesWith (left_gc_key id) lines).length = 1
      · by_cases h4 : (linesWith (right_gc_key id) lines).length = 1
        · by_cases h5 : (linesWith (left_pos_key id) lines).length = 1
          · by_cases h6 : (linesWith (right_pos_key id) lines).length = 1
            · have hok : (parse_single_pair_id id lines).isOk = true := by
                simp [parse_single_pair_id, exactlyOne, h1, h2, h3, h4, h5, h6,
                  Bind.bind, Except.bind, pure, Except.pure, Except.isOk, Except.toBool]
              refine ⟨iff_of_true hok ⟨h1, h2, h3, h4, h5, h6⟩, fun e he => ?_⟩
              rw [he] at hok
              simp [Except.isOk, Except.toBool] at hok
            · have herr : parse_single_pair_id id lines = .error (valeMsg "right_pos") := by
                simp [parse_single_pair_id, exactlyOne, h1, h2, h3, h4, h5, h6,
                  Bind.bind, Except.bind]
              refine ⟨iff_of_false (by rw [herr]; simp [Except.isOk, Except.toBool])
                (fun hc => h6 hc.2.2.2.2.2), fun e he => ?_⟩
              rw [herr] at he
              simp only [Except.error.injEq] at he
              subst he
              exact ⟨by decide, by decide⟩
          · have herr : parse_single_pair_id id lines = .error (valeMsg "left_pos") := by
              simp [parse_single_pair_id, exactlyOne, h1, h2, h3, h4, h5,
                Bind.bind, Except.bind]
            refine ⟨iff_of_false (by rw [herr]; simp [Except.isOk, Except.toBool])
              (fun hc => h5 hc.2.2.2.2.1), fun e he => ?_⟩
            rw [herr] at he
            simp only [Except.error.injEq] at he
            subst he
            exact ⟨by decide, by decide⟩
        · have herr : parse_single_pair_id id lines = .error (valueMsg "right_gc") := by
            simp [parse_single_pair_id, exactlyOne, h1, h2, h3, h4,
              Bind.bind, Except.bind]
          refine ⟨iff_of_false (by rw [herr]; simp [Except.isOk, Except.toBool])
            (fun hc => h4 hc.2.2.2.1), fun e he => ?_⟩
          rw [herr] at he
          simp only [Except.error.injEq] at he
          subst he
          exact ⟨by decide, by decide⟩
      · have herr : parse_single_pair_id id lines = .error (valueMsg "left_gc") := by
          simp [parse_single_pair_id, exactlyOne, h1, h2, h3,
            Bind.bind, Except.bind]
        refine ⟨iff_of_false (by rw [herr]; simp [Except.isOk, Except.toBool])
          (fun hc => h3 hc.2.2.1), fun e he => ?_⟩
        rw [herr] at he
        simp only [Except.error.injEq] at he
        subst he
        exact ⟨by decide, by decide⟩
    · have herr : parse_single_pair_id id lines = .error (valueMsg "right") := by
        simp [parse_single_pair_id, exactlyOne, h1, h2, Bind.bind, Except.bind]
      refine ⟨iff_of_false (by rw [herr]; simp [Except.isOk, Except.toBool])
        (fun hc => h2 hc.2.1), fun e he => ?_⟩
      rw [herr] at he
      simp only [Except.error.injEq] at he
      subst he
      exact ⟨by decide, by decide⟩
  · have herr : parse_single_pair_id id lines = .error (valueMsg "left") := by
      simp [parse_single_pair_id, exactlyOne, h1, Bind.bind, Except.bind]
    refine ⟨iff_of_false (by rw [herr]; simp [Except.isOk, Except.toBool])
      (fun hc => h1 hc.1), fun e he => ?_⟩
    rw [herr] at he
    simp only [Except.error.injEq] at he
    subst he
    exact ⟨by decide, by decide⟩

/-- C1 witness: on the record missing `PRIMER_RIGHT_0=`, decoding index 0
fails and the raised message is one of the six fixed field-naming,
digit-free messages. -/
theorem parse_single_exactly_one_witness :
    valeMsg "right_pos" ∈ cardinalityMsgs ∧
    ∀ c ∈ (valeMsg "right_pos").data, c.isDigit = false :=
  (parse_single_exactly_one 0 exMissingRight0).2 (valeMsg "right_pos") (by rfl)

/-- C1 counterexample: the error raised for a cardinality failure at index 0
is the very same value as the error raised for the analogous failure at
index 1 (and a duplicated `PRIMER_LEFT_0_SEQUENCE=` line also raises); the
error names the failing field `right_pos` but cannot identify the failing
index. -/
theorem error_does_not_identify_index :
    pairIds exMissingRight0 = [0] ∧
    pairIds exMissingRight1 = [1] ∧
    parse_primer3_output exMissingRight0 = .error (valeMsg "right_pos") ∧
    parse_primer3_output exMissingRight1 = .error (valeMsg "right_pos") ∧
    parse_primer3_output exDupLeft0 = .error (valueMsg "left") :=
  ⟨rfl, rfl, rfl, rfl, rfl⟩

/-- C2 counterexample: on a line whose value itself contains `=`
(`PRIMER_LEFT_0_SEQUENCE=A=B`), the decoder extracts the substring after the
last `=` — the field comes out as `B`, not `A=B` as the after-the-first-`=`
rule would give. -/
theorem extraction_counterexample :
    parse_primer3_output exValueWithEq = .ok
      [ { left := "B", right := "TTTTGGGG", left_gc := "50.0", right_gc := "40.0",
          left_pos := "137", right_pos := "50" } ] ∧
    "B" ≠ "A=B" :=
  ⟨rfl, by decide⟩

/-- C2 amended: the extracted value of a sequence or GC-percent field is the
substring after the last `=` on the line, and the extracted value of a
position field is that substring truncated before its first `,` (so
`PRIMER_LEFT_0=137,20` still yields `137`); the two rules agree exactly when
the value contains no further `=`. -/
theorem extract_after_last_eq (pre post : List Char) (hpost : ∀ c ∈ post, c ≠ '=')
    (a b : List Char) (ha : ∀ c ∈ a, c ≠ '=' ∧ c ≠ ',') (hb : ∀ c ∈ b, c ≠ '=') :
    extractAfterEq ⟨pre ++ '=' :: post⟩ = ⟨post⟩ ∧
    extractPos ⟨pre ++ '=' :: (a ++ ',' :: b)⟩ = ⟨a⟩ := by
  constructor
  · show (⟨(splitOnChar '=' (pre ++ '=' :: post)).getLastD []⟩ : String) = ⟨post⟩
    rw [splitOnChar_getLastD '=' pre post hpost]
  · have h1 : ∀ c ∈ a ++ ',' :: b, c ≠ '=' := by
      intro c hc
      rcases List.mem_append.mp hc with h | h
      · exact (ha c h).1
      · rcases List.mem_cons.mp h with rfl | h
        · decide
        · exact hb c h
    show (⟨(splitOnChar ','
        ((splitOnChar '=' (pre ++ '=' :: (a ++ ',' :: b))).getLastD [])).headD []⟩ : String)
      = ⟨a⟩
    rw [splitOnChar_getLastD '=' pre _ h1]
    rw [splitOnChar_headD ',' a b (fun c hc => (ha c hc).2)]

/-- C2 witness: the last-`=` extraction rules applied to the concrete line
remainders `KEY=A=B` (sequence-style) and `KEY=A=137,20` (position-style). -/
theorem extract_after_last_eq_witness :
    extractAfterEq ⟨"KEY=A".data ++ '=' :: ['B']⟩ = ⟨['B']⟩ ∧
    extractPos ⟨"KEY=A".data ++ '=' :: (['1', '3', '7'] ++ ',' :: ['2', '0'])⟩
      = ⟨['1', '3', '7']⟩ :=
  extract_after_last_eq "KEY=A".data ['B'] (by decide)
    ['1', '3', '7'] ['2', '0'] (by decide) (by decide)

/-- C9: for distinct pair indices i and j, no output line whose key belongs
to index j (any of the six key forms followed by arbitrary text) is counted
by any of index i's six startswith lookups: the digit blocks would have to
coincide, and `PRIMER_LEFT_`/`PRIMER_RIGHT_` heads never mix.  Hence each
index's exactly-one cardinality check is unaffected by lines of other
indices. -/
theorem index_keys_disjoint (i j : Nat) (hij : i ≠ j) :
    ∀ ki ∈ keysOf i, ∀ kj ∈ keysOf j, ∀ v : String,
      pyStartswith (kj ++ v) ki = false := by
  intro ki hki kj hkj v
  rw [pyStartswith, Bool.eq_false_iff]
  intro hpre
  rw [List.isPrefixOf_iff_prefix] at hpre
  simp only [keysOf, List.mem_cons, List.not_mem_nil, or_false] at hki hkj
  have hseq : "_SEQUENCE=".data = '_' :: "SEQUENCE=".data := rfl
  have heqt : "=".data = '=' :: ([] : List Char) := rfl
  have hgct : "_GC_PERCENT".data = '_' :: "GC_PERCENT".data := rfl
  rcases hki with rfl | rfl | rfl | rfl | rfl | rfl <;>
    rcases hkj with rfl | rfl | rfl | rfl | rfl | rfl <;>
    simp only [left_seq_key, right_seq_key, left_pos_key, right_pos_key,
      left_gc_key, right_gc_key, data_append, natRepr_data, hseq, heqt, hgct,
      List.append_assoc, List.cons_append, List.nil_append] at hpre <;>
    first
      | exact cross_head_LR _ _ hpre
      | exact cross_head_RL _ _ hpre
      | exact sameL hij (by decide) (by decide) _ _ hpre
      | exact sameR hij (by decide) (by decide) _ _ hpre

/-- C9 witness: the line `PRIMER_LEFT_10=137,25` of index 10 does not match
the index-1 position lookup `PRIMER_LEFT_1=`. -/
theorem index_keys_disjoint_witness :
    pyStartswith (left_pos_key 10 ++ "137,25") (left_pos_key 1) = false :=
  index_keys_disjoint 1 10 (by decide) (left_pos_key 1) (by simp [keysOf])
    (left_pos_key 10) (by simp [keysOf]) "137,25"
